import Mathlib

set_option linter.unusedVariables false

/-!
Verification of core behaviors of the Excel-AI-Interviewer repository.

The definitions below are shallow embeddings of the Python sources:
  * src/core/utils.py            (parse_response_flags_and_clean_text)
  * src/core/models.py           (Message, Question, AIResponseWrapped)
  * src/storage/question_bank.py (QuestionBank)
  * src/ai/agent.py              (GeminiAgent)

External effects (the Gemini backend, the filesystem, the random number
generator) are made explicit parameters, so every definition is an
executable total function.
-/

namespace ExcelAI

/-- Python whitespace (the `\s` class of `re` and the character set removed
by `str.strip`), restricted to the ASCII range; the repository only deals
in ASCII text around the marker. -/
def pySpace (c : Char) : Bool :=
  c == ' ' || c == '\t' || c == '\n' || c == '\r' || c == '\x0b' || c == '\x0c'

/-- Drop leading whitespace, modelling a greedy `\s*` (no shorter match of
`\s*` can help here because the following literal is never a whitespace
character). -/
def dropWS (s : List Char) : List Char := s.dropWhile pySpace

/-- Python `str.rstrip()` on a character list. -/
def rstripChars (s : List Char) : List Char := (s.reverse.dropWhile pySpace).reverse

/-- Python `str.strip()` on a character list. -/
def trimChars (s : List Char) : List Char := rstripChars (dropWS s)

/-- Python `str.strip()`. -/
def pyStrip (s : String) : String := ⟨trimChars s.data⟩

/-- Python `str.rstrip()`. -/
def pyRstrip (s : String) : String := ⟨rstripChars s.data⟩

/-- Python `str.lower()` (ASCII letters, as used for difficulty labels and
capability tags in the repository). -/
def pyLower (s : String) : String := ⟨s.data.map Char.toLower⟩

/-- Expect the exact literal `l` at the head of `s`; return the rest on
success. -/
def litE : List Char → List Char → Option (List Char)
  | [], s => some s
  | _ :: _, [] => none
  | c :: l, d :: s => if d = c then litE l s else none

/-- Expect the literal `l` at the head of `s`, comparing characters
case-insensitively (the regex is compiled with `re.IGNORECASE`); return the
rest on success. -/
def litCI : List Char → List Char → Option (List Char)
  | [], s => some s
  | _ :: _, [] => none
  | c :: l, d :: s => if d.toLower = c.toLower then litCI l s else none

/-- Case-insensitive equality of character lists. -/
def ciEq (a b : List Char) : Bool := a.map Char.toLower == b.map Char.toLower

/-- Model of the tail `\s*([^\]]+)\s*\]\]\s*$` of the marker regex in
`parse_response_flags_and_clean_text` (src/core/utils.py), applied to the
text following `QID\s*=`.  The greedy `[^\]]+` stops exactly before the
first `]`; backtracking between `\s*` and `[^\]]+` only moves whitespace
between the two groups, so `group(2).strip()` always equals the stripped
run of non-`]` characters, which is what this function returns.  The final
`\s*$` accepts exactly a whitespace-only remainder (Python's `$` also
matches before a final newline, which the greedy `\s*` already covers). -/
def matchQidTail (u : List Char) : Option (List Char) :=
  if (u.takeWhile (fun c => c ≠ ']')).isEmpty then none
  else
    match u.dropWhile (fun c => c ≠ ']') with
    | ']' :: ']' :: w =>
      if w.all pySpace then some (trimChars (u.takeWhile (fun c => c ≠ ']')))
      else none
    | _ => none

/-- Continuation of the marker regex after the `(true|false)` group:
`\s+QID\s*=` followed by the qid tail.  `b` records whether the boolean
group matched `true` (the code lowercases `group(1)` and compares with
`"true"`, which is exactly this Boolean). -/
def matchAfterBool (b : Bool) (s : List Char) : Option (Bool × List Char) :=
  match s with
  | [] => none
  | c :: rest =>
    if pySpace c then
      (litCI ['Q', 'I', 'D'] (dropWS rest)).bind fun s5 =>
      (litE ['='] (dropWS s5)).bind fun u =>
      (matchQidTail u).map fun qr => (b, qr)
    else none

/-- Does the whole suffix `s` match the marker regex
`\s*\[\[\s*END\s*=\s*(true|false)\s+QID\s*=\s*([^\]]+)\s*\]\]\s*$`
(with `re.IGNORECASE`)?  Returns the end flag and the stripped qid
capture.  The `(true|false)` alternation is deterministic because the two
literals differ at their first character. -/
def matchSuffix (s : List Char) : Option (Bool × List Char) :=
  (litE ['[', '['] (dropWS s)).bind fun s1 =>
  (litCI ['E', 'N', 'D'] (dropWS s1)).bind fun s2 =>
  (litE ['='] (dropWS s2)).bind fun s3 =>
  (litCI ['t', 'r', 'u', 'e'] (dropWS s3)).elim
    ((litCI ['f', 'a', 'l', 's', 'e'] (dropWS s3)).elim none
      (fun s4 => matchAfterBool false s4))
    (fun s4 => matchAfterBool true s4)

/-- Model of `re.search` with the marker pattern: try each start position
from the left and return the first whose suffix matches, together with the
match start (used for `text[: match.start()]`). -/
def searchMarker : List Char → Option (Nat × Bool × List Char)
  | [] => (matchSuffix []).map fun r => (0, r.1, r.2)
  | c :: t =>
    (matchSuffix (c :: t)).elim
      ((searchMarker t).map fun r => (r.1 + 1, r.2.1, r.2.2))
      (fun r => some (0, r.1, r.2))

/-- Embedding of `parse_response_flags_and_clean_text` (src/core/utils.py).
Returns `(cleaned_text, end_flag, question_id)`.  The membership test
`qid_raw in {"none", "", "null"}` in the source is case-sensitive on the
stripped capture. -/
def parse_response_flags_and_clean_text (text : String) :
    String × Bool × Option String :=
  if text.data.isEmpty then ("", false, none)
  else
    (searchMarker text.data).elim (text, false, none) fun r =>
      let question_id :=
        if r.2.2 = "none".data ∨ r.2.2 = [] ∨ r.2.2 = "null".data then none
        else some ⟨r.2.2⟩
      (⟨rstripChars (text.data.take r.1)⟩, r.2.1, question_id)

example :
    parse_response_flags_and_clean_text "Let's continue." =
      ("Let's continue.", false, none) := by decide

example :
    parse_response_flags_and_clean_text "See [[END=true QID=7]] later" =
      ("See [[END=true QID=7]] later", false, none) := by decide

example :
    parse_response_flags_and_clean_text "Bye [[ end = TRUE  QID = none ]]" =
      ("Bye", true, none) := by decide

example :
    parse_response_flags_and_clean_text "Hi [[END=true QID=None]]" =
      ("Hi", true, some "None") := by decide

/-! ## Data model (src/core/models.py) -/

inductive Role
  | user
  | assistant
  | system
deriving DecidableEq, Repr

/-- Embedding of `core.models.Message`.  Only the fields consulted by the
agent are carried; `timestamp`, `turn_index` and `metadata` are never read
by any embedded operation. -/
structure Message where
  role : Role
  content : String
deriving DecidableEq, Repr

/-- Embedding of `core.models.Question` exactly as declared in
src/core/models.py: the capability field is declared with the singular
name `capability`, and there is no `evaluation_criteria` field. -/
structure Question where
  id : String
  capability : List String
  difficulty : String
  text : String
deriving DecidableEq, Repr

/-- A Python value of the shapes appearing in the question-bank records. -/
inductive PyValue
  | str (s : String)
  | strList (l : List String)
deriving DecidableEq, Repr

/-- Pydantic validation of `core.models.Question` against a keyword-argument
list.  Each declared field (`id`, `capability`, `difficulty`, `text`) must
be supplied with a value of the declared type; unknown keywords are ignored
(pydantic's default extra-field behavior).  A missing or ill-typed declared
field raises a `ValidationError`, modelled as `.error`. -/
def validateQuestion (kw : List (String × PyValue)) : Except String Question :=
  match kw.lookup "id", kw.lookup "capability", kw.lookup "difficulty", kw.lookup "text" with
  | some (.str i), some (.strList caps), some (.str d), some (.str t) =>
    .ok ⟨i, caps, d, t⟩
  | _, _, _, _ => .error "validation error for Question"

/-- The keyword arguments used at every `Question(...)` construction site in
src/storage/question_bank.py: note the keyword is the plural
`capabilities`, which is not a declared field of the model. -/
def questionKwargs (id text difficulty : String)
    (capabilities evaluation_criteria : List String) : List (String × PyValue) :=
  [("id", .str id), ("capabilities", .strList capabilities),
   ("difficulty", .str difficulty), ("text", .str text),
   ("evaluation_criteria", .strList evaluation_criteria)]

/-! ## Question bank (src/storage/question_bank.py) -/

/-- One record of a parsed question-bank JSON file; absent keys are `none`
(the `item.get` defaults apply). -/
structure RawRecord where
  id : Option String := none
  capabilities : Option PyValue := none
  difficulty : Option String := none
  text : Option String := none
  evaluation_criteria : Option (List String) := none
deriving DecidableEq, Repr

/-- The capability coercion in `QuestionBank._load_questions`: a single
string becomes a one-element list (if nonblank), a list is stripped and
blank entries are removed, an absent field becomes the empty list. -/
def coerceCaps : Option PyValue → List String
  | some (.str s) => if pyStrip s = "" then [] else [pyStrip s]
  | some (.strList l) => (l.map pyStrip).filter (fun c => c ≠ "")
  | none => []

/-- Construction of one `Question` inside the `_load_questions` loop. -/
def loadOne (item : RawRecord) : Except String Question :=
  validateQuestion (questionKwargs (item.id.getD "") (item.text.getD "")
    (item.difficulty.getD "") (coerceCaps item.capabilities)
    (item.evaluation_criteria.getD []))

/-- The three ways reading the bank file can go. -/
inductive BankFile
  | missing
  | unparseable
  | parsed (items : List RawRecord)
deriving DecidableEq, Repr

/-- Embedding of `QuestionBank._load_questions`: a missing file or a JSON
parse error yields the empty bank; otherwise the records are converted one
by one inside a `try` block, and any exception during the loop (in
particular a pydantic `ValidationError`) resets the bank to empty. -/
def load_questions : BankFile → List Question
  | .missing => []
  | .unparseable => []
  | .parsed items =>
    match items.mapM loadOne with
    | .ok qs => qs
    | .error _ => []

/-- Embedding of `QuestionBank.select_random_question`.  `pick` stands for
the draw of `random.choice`, which selects some element of the candidate
list.  Python truthiness: an empty exclusion set, an empty difficulty
string or an empty capability list disables the corresponding filter.  The
capability filter evaluates `q.capabilities` on each candidate, an
attribute `core.models.Question` does not declare, so it raises
`AttributeError` as soon as it is active on a nonempty candidate list. -/
def select_random_question (questions : List Question)
    (exclude_ids : List String) (difficulty : Option String)
    (capabilities : Option (List String)) (pick : Nat) :
    Except String (Option Question) :=
  let c1 := if exclude_ids.isEmpty then questions
            else questions.filter (fun q => !(exclude_ids.contains q.id))
  let c2 := match difficulty with
    | none => c1
    | some d => if d = "" then c1
                else c1.filter (fun q => pyLower q.difficulty == pyLower d)
  let capActive := match capabilities with
    | none => false
    | some caps => !caps.isEmpty
  if capActive && !c2.isEmpty then
    .error "AttributeError: Question object has no attribute capabilities"
  else if c2.isEmpty then .ok none
  else .ok (c2.get? (pick % c2.length))

def digitsToNat (l : List Char) : Nat := l.foldl (fun a c => a * 10 + (c.toNat - 48)) 0

/-- Model of Python `int(s)` for the id strings handled by the bank:
optional surrounding whitespace, optional sign, then a nonempty digit run;
anything else raises `ValueError`, modelled as `none`. -/
def pyInt (s : String) : Option Int :=
  match trimChars s.data with
  | '-' :: ds => if ds ≠ [] ∧ ds.all Char.isDigit then some (-(digitsToNat ds : Int)) else none
  | '+' :: ds => if ds ≠ [] ∧ ds.all Char.isDigit then some (digitsToNat ds) else none
  | ds => if ds ≠ [] ∧ ds.all Char.isDigit then some (digitsToNat ds) else none

/-- Embedding of `QuestionBank._generate_unique_id`: one greater than the
maximum id that parses as an integer (starting the maximum at 0), or `"1"`
for an empty bank. -/
def generate_unique_id (questions : List Question) : String :=
  if questions.isEmpty then "1"
  else
    let maxId := questions.foldl (fun acc q =>
      match pyInt q.id with
      | some n => max acc n
      | none => acc) (0 : Int)
    toString (maxId + 1)

/-- The tail of `QuestionBank.add_question` once a concrete id is at hand:
the collision check against the existing ids, then the `Question(...)`
construction (the pydantic validation above) inside the `try` block, the
in-memory append and the save; `saveOk` stands for the outcome of
`_save_questions_to_file`, and a failed save pops the appended question
again. -/
def addWithId (questions : List Question) (text : String)
    (capabilities : List String) (difficulty : String) (qid : String)
    (evaluation_criteria : List String) (saveOk : Bool) :
    List Question × Bool :=
  if questions.any (fun q => q.id == qid) then (questions, false)
  else
    match validateQuestion (questionKwargs qid (pyStrip text)
        (pyStrip difficulty) (capabilities.map pyStrip) evaluation_criteria) with
    | .error _ => (questions, false)
    | .ok q => if saveOk then (questions ++ [q], true) else (questions, false)

/-- Embedding of `QuestionBank.add_question`: the early input validations,
then id generation (for an omitted id) or the blank-id rejection, then the
tail above. -/
def add_question (questions : List Question) (text : String)
    (capabilities : List String) (difficulty : String)
    (question_id : Option String) (evaluation_criteria : List String)
    (saveOk : Bool) : List Question × Bool :=
  if pyStrip text = "" then (questions, false)
  else if capabilities.isEmpty then (questions, false)
  else if pyStrip difficulty = "" then (questions, false)
  else if capabilities.any (fun c => pyStrip c = "") then (questions, false)
  else
    match question_id with
    | none => addWithId questions text capabilities difficulty
        (generate_unique_id questions) evaluation_criteria saveOk
    | some s =>
      if pyStrip s = "" then (questions, false)
      else addWithId questions text capabilities difficulty s
        evaluation_criteria saveOk

/-- Embedding of `QuestionBank.add_question_and_get_id`. -/
def add_question_and_get_id (questions : List Question) (text : String)
    (capabilities : List String) (difficulty : String)
    (question_id : Option String) (evaluation_criteria : List String)
    (saveOk : Bool) : List Question × Option String :=
  let new_id := match question_id with
    | some s => if s = "" then generate_unique_id questions else s
    | none => generate_unique_id questions
  let r := add_question questions text capabilities difficulty (some new_id)
    evaluation_criteria saveOk
  (r.1, if r.2 then some new_id else none)

/-! ## Agent (src/ai/agent.py) -/

structure AgentState where
  used_question_ids : List String
deriving DecidableEq, Repr

/-- `GeminiAgent.__init__` starts each session with an empty used-id set. -/
def initialAgentState : AgentState := ⟨[]⟩

/-- Python `set.add` on the insertion-ordered model of the used-id set. -/
def setAdd (s : List String) (x : String) : List String :=
  if s.contains x then s else s ++ [x]

/-- The dictionary shape returned by the two tool callables. -/
structure ToolResult where
  id : String
  text : String
  difficulty : String
  capabilities : List String
deriving DecidableEq, Repr

/-- Embedding of `GeminiAgent.get_next_question`.  A selected question's id
is marked used immediately; building the result dictionary then reads
`question.capabilities`, an attribute `core.models.Question` does not
declare, so the success path raises after the set has already grown.  The
no-candidate path returns the sentinel payload and leaves the set
untouched. -/
def get_next_question (bank : List Question) (st : AgentState)
    (capabilities : Option (List String)) (difficulty : Option String)
    (pick : Nat) : Except String ToolResult × AgentState :=
  match select_random_question bank st.used_question_ids difficulty capabilities pick with
  | .error e => (.error e, st)
  | .ok none =>
    (.ok ⟨"", "No more suitable questions are available.",
          difficulty.getD "", capabilities.getD []⟩, st)
  | .ok (some q) =>
    let st' := if q.id = "" then st else ⟨setAdd st.used_question_ids q.id⟩
    (.error "AttributeError: Question object has no attribute capabilities", st')

/-- The session-state dictionary as consulted by the agent
(`state.get("session_id")`, `state.get("force_end", False)`). -/
structure SessionState where
  session_id : Option String := none
  force_end : Bool := false
deriving DecidableEq, Repr

/-- Embedding of `GeminiAgent._should_end_interview`. -/
def should_end_interview (messages : List Message)
    (state : Option SessionState) : Bool :=
  if 10 ≤ (messages.filter (fun m => m.role == Role.assistant)).length then true
  else match state with
    | some s => s.force_end
    | none => false

/-- The metadata entries of a reply that are functions of the embedded
state (`model` and `tokens_used` depend only on the environment and the
backend usage report and are not carried). -/
structure RespMetadata where
  agent : String
  questions_used : Nat := 0
  question_id : Option String := none
  error : Option String := none
  error_type : Option String := none
deriving DecidableEq, Repr

/-- Embedding of `core.models.AIResponseWrapped` (`end` is a Lean keyword,
hence the field name `end_`). -/
structure AIResponseWrapped where
  text : String
  metadata : RespMetadata
  end_ : Bool
deriving DecidableEq, Repr

/-- Outcome of the `client.models.generate_content` call inside
`generate_reply`: either the response text or a raised exception with its
message and type name. -/
inductive BackendResult
  | ok (text : String)
  | exn (msg : String) (ty : String)
deriving DecidableEq, Repr

/-- Embedding of `GeminiAgent.generate_reply`.  On backend success the raw
text is stripped, the marker is decoded, a decoded question id is marked
used, and the end condition is the decoded flag or the heuristic — note
the source calls `self._should_end_interview(messages)` without forwarding
`state`, so the heuristic runs with `state = None`.  On backend failure the
fallback response embeds `str(e)` in its text and metadata. -/
def generate_reply (backend : BackendResult) (messages : List Message)
    (state : Option SessionState) (st : AgentState) :
    AIResponseWrapped × AgentState :=
  match backend with
  | .exn msg ty =>
    ({ text := "I apologize, but I'm having trouble connecting to Gemini right now. Error: " ++ msg,
       metadata := { agent := "gemini", error := some msg, error_type := some ty },
       end_ := false }, st)
  | .ok rawText =>
    let reply_text_raw := pyStrip rawText
    let parsed := parse_response_flags_and_clean_text reply_text_raw
    let st' := match parsed.2.2 with
      | some qid => ⟨setAdd st.used_question_ids qid⟩
      | none => st
    let should_end := parsed.2.1 || should_end_interview messages none
    ({ text := parsed.1,
       metadata := { agent := "gemini",
                     questions_used := st'.used_question_ids.length,
                     question_id := parsed.2.2 },
       end_ := should_end }, st')

/-- Python `x or y` on an optional string (`None` and `""` are falsy). -/
def orElseStr (o : Option String) (dflt : String) : String :=
  match o with
  | some s => if s = "" then dflt else s
  | none => dflt

/-- Payload produced by `_generate_question_via_llm` (that helper already
strips code fences, extracts the JSON span and falls back to a minimal
dictionary on parse failure, so a successful call always yields a payload
of this shape). -/
structure GenPayload where
  text : Option String := none
  capabilities : Option PyValue := none
  difficulty : Option String := none
  evaluation_criteria : Option PyValue := none
deriving DecidableEq, Repr

/-- `re.split` on a set of single-character separators, keeping empty
pieces (they are filtered afterwards by the caller). -/
def splitSeps (seps : List Char) : List Char → List (List Char)
  | [] => [[]]
  | c :: t =>
    let r := splitSeps seps t
    if seps.contains c then [] :: r
    else match r with
      | h :: r2 => (c :: h) :: r2
      | [] => [[c]]

/-- Normalization of a capabilities / criteria payload entry in
`GeminiAgent.generate_question`: a string is split on the separators, a
list is taken as is, then every entry is stripped and blank entries are
dropped. -/
def normalizeStrs (seps : List Char) : PyValue → List String
  | .str s => ((splitSeps seps s.data).map (fun l => pyStrip ⟨l⟩)).filter (fun c => c ≠ "")
  | .strList l => (l.map pyStrip).filter (fun c => c ≠ "")

/-- Embedding of `GeminiAgent.generate_question`.  `llm` is the outcome of
`_generate_question_via_llm` (`.error` = the nested generation call
raised).  Persisting goes through `add_question_and_get_id`; since the
pydantic validation of `Question` fails (see `validateQuestion`), the add
reports failure, `new_id` ends up `""`, and the used-id set is not grown on
that path. -/
def generate_question (bank : List Question) (st : AgentState)
    (llm : Except String GenPayload) (capabilities : Option (List String))
    (difficulty : Option String) (saveOk : Bool) :
    ToolResult × AgentState × List Question :=
  let sentinel : ToolResult :=
    ⟨"", "Unable to generate a new question at this time.",
     difficulty.getD "", capabilities.getD []⟩
  match llm with
  | .error _ => (sentinel, st, bank)
  | .ok payload =>
    let text_raw := pyStrip (payload.text.getD "")
    if text_raw = "" then (sentinel, st, bank)
    else
      let gen_caps := normalizeStrs [',', '|']
        (payload.capabilities.getD (.strList (capabilities.getD [])))
      let gen_diff := pyStrip (orElseStr payload.difficulty
        (orElseStr difficulty "Medium"))
      let eval_criteria := normalizeStrs ['\n', ',', '|']
        (payload.evaluation_criteria.getD (.strList []))
      let r := add_question_and_get_id bank text_raw gen_caps gen_diff none
        eval_criteria saveOk
      let new_id := (r.2).getD ""
      let st' := if new_id = "" then st else ⟨setAdd st.used_question_ids new_id⟩
      (⟨new_id, text_raw, gen_diff, gen_caps⟩, st', r.1)

/-! ## Substring helpers -/

/-- Does `s` start with `pat`? -/
def startsWithB : List Char → List Char → Bool
  | [], _ => true
  | _ :: _, [] => false
  | a :: l, b :: s => a == b && startsWithB l s

/-- Does `pat` occur as a contiguous substring of `s`? -/
def hasSubB (pat : List Char) : List Char → Bool
  | [] => startsWithB pat []
  | s@(_ :: t) => startsWithB pat s || hasSubB pat t

/-! ## Helper lemmas -/

theorem dropWhile_append_of_all {p : Char → Bool} {a : List Char}
    (b : List Char) (h : ∀ c ∈ a, p c = true) :
    (a ++ b).dropWhile p = b.dropWhile p := by
  induction a with
  | nil => rfl
  | cons c t ih =>
    have hc : p c = true := h c (by simp)
    simp only [List.cons_append, List.dropWhile_cons, hc, if_true]
    exact ih (fun x hx => h x (by simp [hx]))

theorem dropWhile_append_of_ne {p : Char → Bool} {a : List Char}
    (b : List Char) (h : a.dropWhile p ≠ []) :
    (a ++ b).dropWhile p = a.dropWhile p ++ b := by
  induction a with
  | nil => exact absurd rfl h
  | cons c t ih =>
    by_cases hc : p c = true
    · simp only [List.cons_append, List.dropWhile_cons, hc, if_true]
      exact ih (by simpa [List.dropWhile_cons, hc] using h)
    · simp only [List.cons_append, List.dropWhile_cons, hc]
      simp [Bool.not_eq_true] at hc
      simp [hc]

theorem dropWhile_head_false {p : Char → Bool} {l t : List Char} {c : Char}
    (h : l.dropWhile p = c :: t) : p c = false := by
  induction l with
  | nil => simp [List.dropWhile] at h
  | cons a r ih =>
    by_cases ha : p a = true
    · exact ih (by simpa [List.dropWhile_cons, ha] using h)
    · simp only [List.dropWhile_cons, ha] at h
      simp [Bool.not_eq_true] at ha
      rw [← (List.cons.inj h).1]
      exact ha

theorem dropWhile_ne_nil_of_mem {p : Char → Bool} {l : List Char} {x : Char}
    (hx : x ∈ l) (hpx : p x = false) : l.dropWhile p ≠ [] := by
  induction l with
  | nil => cases hx
  | cons c t ih =>
    by_cases hc : p c = true
    · rcases List.mem_cons.mp hx with rfl | hmem
      · rw [hc] at hpx; cases hpx
      · simpa [List.dropWhile_cons, hc] using ih hmem
    · simp [List.dropWhile_cons, hc]

theorem mem_takeWhile_pred {p : Char → Bool} {l : List Char} :
    ∀ c ∈ l.takeWhile p, p c = true := by
  induction l with
  | nil => intro c hc; simp [List.takeWhile] at hc
  | cons a t ih =>
    intro c hc
    by_cases ha : p a = true
    · simp only [List.takeWhile_cons, ha, if_true, List.mem_cons] at hc
      rcases hc with rfl | hc
      · exact ha
      · exact ih c hc
    · simp [List.takeWhile_cons, ha] at hc

theorem takeWhile_dropWhile_append_cons {q r : List Char}
    (hq : ∀ c ∈ q, c ≠ ']') :
    (q ++ ']' :: r).takeWhile (fun c => c ≠ ']') = q ∧
    (q ++ ']' :: r).dropWhile (fun c => c ≠ ']') = ']' :: r := by
  induction q with
  | nil => simp [List.takeWhile_cons, List.dropWhile_cons]
  | cons c t ih =>
    have hc : c ≠ ']' := hq c (by simp)
    have iht := ih (fun x hx => hq x (by simp [hx]))
    constructor
    · simpa [List.takeWhile_cons, hc] using iht.1
    · simpa [List.dropWhile_cons, hc] using iht.2

theorem litE_append (l s : List Char) : litE l (l ++ s) = some s := by
  induction l with
  | nil => rfl
  | cons c t ih => simp [litE, ih]

theorem litE_eq_some {l : List Char} :
    ∀ {s r : List Char}, litE l s = some r → s = l ++ r := by
  induction l with
  | nil => intro s r h; simpa [litE] using (by simpa [litE] using h : s = r)
  | cons c t ih =>
    intro s r h
    cases s with
    | nil => simp [litE] at h
    | cons d s2 =>
      by_cases hd : d = c
      · subst hd
        simp only [litE, if_pos rfl] at h
        simpa using ih h
      · simp [litE, hd] at h

theorem ciEq_cons_inv {l : List Char} {c : Char} {lit : List Char}
    (h : ciEq l (c :: lit) = true) :
    ∃ d l2, l = d :: l2 ∧ d.toLower = c.toLower ∧ ciEq l2 lit = true := by
  cases l with
  | nil => simp [ciEq] at h
  | cons d l2 =>
    simp only [ciEq, List.map_cons, List.cons_beq_cons, Bool.and_eq_true,
      beq_iff_eq] at h
    exact ⟨d, l2, rfl, h.1, by simp [ciEq, h.2]⟩

theorem ciEq_nil_inv {l : List Char} (h : ciEq l [] = true) : l = [] := by
  cases l with
  | nil => rfl
  | cons d l2 => simp [ciEq] at h

theorem litCI_append {lit : List Char} :
    ∀ {l : List Char} (s : List Char), ciEq l lit = true →
      litCI lit (l ++ s) = some s := by
  induction lit with
  | nil =>
    intro l s h
    rw [ciEq_nil_inv h]
    rfl
  | cons c lit2 ih =>
    intro l s h
    obtain ⟨d, l2, rfl, hd, h2⟩ := ciEq_cons_inv h
    simp only [List.cons_append, litCI, hd, if_pos rfl]
    exact ih s h2

theorem litCI_eq_some {lit : List Char} :
    ∀ {s r : List Char}, litCI lit s = some r →
      ∃ l, s = l ++ r ∧ ciEq l lit = true := by
  induction lit with
  | nil =>
    intro s r h
    refine ⟨[], ?_, rfl⟩
    simpa [litCI] using (by simpa [litCI] using h : s = r)
  | cons c lit2 ih =>
    intro s r h
    cases s with
    | nil => simp [litCI] at h
    | cons d s2 =>
      by_cases hd : d.toLower = c.toLower
      · simp only [litCI, if_pos hd] at h
        obtain ⟨l2, rfl, hci⟩ := ih h
        exact ⟨d :: l2, rfl, by
          simp only [ciEq, List.map_cons, List.cons_beq_cons, Bool.and_eq_true,
            beq_iff_eq]
          exact ⟨hd, by simpa [ciEq] using hci⟩⟩
      · simp [litCI, hd] at h

theorem litCI_none_of_head {c : Char} (lit : List Char) {d : Char}
    (s : List Char) (h : d.toLower ≠ c.toLower) :
    litCI (c :: lit) (d :: s) = none := by
  simp [litCI, h]

theorem pySpace_toLower_self {c : Char} (h : pySpace c = true) :
    c.toLower = c := by
  simp only [pySpace, Bool.or_eq_true, beq_iff_eq] at h
  rcases h with ((((rfl | rfl) | rfl) | rfl) | rfl) | rfl <;> decide

theorem not_space_of_toLower {c x : Char} (h : c.toLower = x)
    (hx : pySpace x = false) : pySpace c = false := by
  by_cases hc : pySpace c = true
  · rw [pySpace_toLower_self hc] at h
    rw [← h] at hx
    rw [hc] at hx
    cases hx
  · simpa using hc

theorem dropWS_cons_of_not {s : List Char} {d : Char}
    (h : pySpace d = false) : dropWS (d :: s) = d :: s := by
  simp [dropWS, List.dropWhile_cons, h]

theorem ciEq_length {l lit : List Char} (h : ciEq l lit = true) :
    l.length = lit.length := by
  have := (beq_iff_eq (a := l.map Char.toLower) (b := lit.map Char.toLower)).mp h
  simpa using congrArg List.length this

/-- The whitespace run removed by `rstripChars`. -/
def wsTail (p : List Char) : List Char := (p.reverse.takeWhile pySpace).reverse

theorem rstrip_wsTail (p : List Char) : rstripChars p ++ wsTail p = p := by
  unfold rstripChars wsTail
  rw [← List.reverse_append, List.takeWhile_append_dropWhile, List.reverse_reverse]

theorem wsTail_all_ws (p : List Char) : ∀ c ∈ wsTail p, pySpace c = true := by
  intro c hc
  unfold wsTail at hc
  rw [List.mem_reverse] at hc
  exact mem_takeWhile_pred c hc

theorem rstrip_eq_nil_or_last (p : List Char) :
    rstripChars p = [] ∨
      ∃ y c, rstripChars p = y ++ [c] ∧ pySpace c = false := by
  unfold rstripChars
  cases h : p.reverse.dropWhile pySpace with
  | nil => left; simp [h]
  | cons c t =>
    right
    exact ⟨t.reverse, c, by simp [h], dropWhile_head_false h⟩

theorem dropWhile_idem (p : Char → Bool) (l : List Char) :
    (l.dropWhile p).dropWhile p = l.dropWhile p := by
  cases h : l.dropWhile p with
  | nil => rfl
  | cons c t => rw [List.dropWhile_cons, dropWhile_head_false h]; simp

theorem rstrip_idem (p : List Char) :
    rstripChars (rstripChars p) = rstripChars p := by
  unfold rstripChars
  rw [List.reverse_reverse, dropWhile_idem]

theorem startsWithB_append (pat r : List Char) :
    startsWithB pat (pat ++ r) = true := by
  induction pat with
  | nil => rfl
  | cons c t ih => simp [startsWithB, ih]

theorem hasSubB_of_startsWith {pat s : List Char}
    (h : startsWithB pat s = true) : hasSubB pat s = true := by
  cases s with
  | nil => simpa [hasSubB] using h
  | cons c t => simp [hasSubB, h]

theorem hasSubB_append_left (pat u : List Char) {s : List Char}
    (h : hasSubB pat s = true) : hasSubB pat (u ++ s) = true := by
  induction u with
  | nil => simpa using h
  | cons c t ih =>
    simp only [List.cons_append, hasSubB, Bool.or_eq_true]
    right
    exact ih

theorem exists_takeWhile_dropWhile (p : Char → Bool) (l : List Char) :
    ∃ u, l = u ++ l.dropWhile p ∧ ∀ c ∈ u, p c = true :=
  ⟨l.takeWhile p, (List.takeWhile_append_dropWhile (p := p) (l := l)).symm,
    mem_takeWhile_pred⟩

theorem subset_setAdd (s : List String) (x : String) : s ⊆ setAdd s x := by
  unfold setAdd
  split
  · exact List.Subset.refl _
  · exact List.subset_append_left _ _

/-- The pydantic construction of `Question` fails for the keyword set used
throughout `question_bank.py`: the declared field `capability` is never
among the supplied keywords. -/
theorem validateQuestion_kwargs_error (id text difficulty : String)
    (capabilities evaluation_criteria : List String) :
    validateQuestion (questionKwargs id text difficulty capabilities
      evaluation_criteria) = .error "validation error for Question" := rfl

theorem addWithId_never_succeeds (questions : List Question)
    (text : String) (capabilities : List String) (difficulty : String)
    (qid : String) (evaluation_criteria : List String) (saveOk : Bool) :
    addWithId questions text capabilities difficulty qid
      evaluation_criteria saveOk = (questions, false) := by
  unfold addWithId
  split_ifs <;> rfl

/-- `add_question` can never succeed: every early validation branch reports
failure, and the final `Question(...)` construction raises a pydantic
`ValidationError` (see `validateQuestion_kwargs_error`), which the
`except` clause converts into `False`. -/
theorem add_question_never_succeeds (questions : List Question)
    (text : String) (capabilities : List String) (difficulty : String)
    (question_id : Option String) (evaluation_criteria : List String)
    (saveOk : Bool) :
    add_question questions text capabilities difficulty question_id
      evaluation_criteria saveOk = (questions, false) := by
  unfold add_question
  split_ifs <;> try rfl
  rcases question_id with _ | s
  · exact addWithId_never_succeeds ..
  · by_cases hs : pyStrip s = ""
    · simp [hs]
    · simpa [hs] using addWithId_never_succeeds questions text capabilities
        difficulty s evaluation_criteria saveOk

/-! ## Marker grammar adequacy -/

theorem dropWS_ws_append {w : List Char} (s : List Char)
    (hw : ∀ c ∈ w, pySpace c = true) : dropWS (w ++ s) = dropWS s :=
  dropWhile_append_of_all s hw

theorem matchQidTail_complete {q : List Char} (w7 : List Char)
    (hqne : q ≠ []) (hq2 : ∀ c ∈ q, c ≠ ']')
    (h7 : ∀ c ∈ w7, pySpace c = true) :
    matchQidTail (q ++ ']' :: ']' :: w7) = some (trimChars q) := by
  have hsplit := takeWhile_dropWhile_append_cons (r := ']' :: w7) hq2
  have hq0 : q.isEmpty = false := by
    cases q
    · exact absurd rfl hqne
    · rfl
  unfold matchQidTail
  rw [hsplit.1, hsplit.2, hq0]
  simp [List.all_eq_true.mpr h7]

theorem matchAfterBool_complete (b : Bool) {wB kQ : List Char}
    (w4 q w7 : List Char)
    (hB : ∀ c ∈ wB, pySpace c = true) (hBne : wB ≠ [])
    (hkQ : ciEq kQ ['Q', 'I', 'D'] = true)
    (h4 : ∀ c ∈ w4, pySpace c = true)
    (hqne : q ≠ []) (hq2 : ∀ c ∈ q, c ≠ ']')
    (h7 : ∀ c ∈ w7, pySpace c = true) :
    matchAfterBool b (wB ++ (kQ ++ (w4 ++ '=' :: (q ++ ']' :: ']' :: w7)))) =
      some (b, trimChars q) := by
  obtain ⟨c0, wB2, rfl⟩ : ∃ c0 wB2, wB = c0 :: wB2 := by
    cases wB with
    | nil => exact absurd rfl hBne
    | cons a l => exact ⟨a, l, rfl⟩
  have hc0 : pySpace c0 = true := hB c0 (by simp)
  have hB2 : ∀ c ∈ wB2, pySpace c = true := fun c hc => hB c (by simp [hc])
  obtain ⟨qc, kQ2, rfl, hqc, _⟩ := ciEq_cons_inv hkQ
  have e1 : dropWS (wB2 ++ qc :: (kQ2 ++ (w4 ++ '=' :: (q ++ ']' :: ']' :: w7)))) =
      qc :: (kQ2 ++ (w4 ++ '=' :: (q ++ ']' :: ']' :: w7))) := by
    rw [dropWS_ws_append _ hB2]
    exact dropWS_cons_of_not (not_space_of_toLower hqc (by decide))
  have e2 : litCI ['Q', 'I', 'D']
      (qc :: (kQ2 ++ (w4 ++ '=' :: (q ++ ']' :: ']' :: w7)))) =
      some (w4 ++ '=' :: (q ++ ']' :: ']' :: w7)) :=
    litCI_append _ hkQ
  have e3 : dropWS (w4 ++ '=' :: (q ++ ']' :: ']' :: w7)) =
      '=' :: (q ++ ']' :: ']' :: w7) := by
    rw [dropWS_ws_append _ h4]
    exact dropWS_cons_of_not (by decide)
  have e4 : litE ['='] ('=' :: (q ++ ']' :: ']' :: w7)) =
      some (q ++ ']' :: ']' :: w7) :=
    litE_append ['='] _
  simp only [List.cons_append, matchAfterBool, hc0, if_true, e1, e2, e3, e4,
    Option.bind, matchQidTail_complete w7 hqne hq2 h7, Option.map]

theorem matchSuffix_to_alternation (w0 w1 w2 w3 : List Char)
    {kE : List Char} (rest : List Char)
    (h0 : ∀ c ∈ w0, pySpace c = true)
    (h1 : ∀ c ∈ w1, pySpace c = true)
    (h2 : ∀ c ∈ w2, pySpace c = true)
    (h3 : ∀ c ∈ w3, pySpace c = true)
    (hkE : ciEq kE ['E', 'N', 'D'] = true) :
    matchSuffix (w0 ++ '[' :: '[' :: (w1 ++ (kE ++ (w2 ++ '=' :: (w3 ++ rest))))) =
      (litCI ['t', 'r', 'u', 'e'] (dropWS (w3 ++ rest))).elim
        ((litCI ['f', 'a', 'l', 's', 'e'] (dropWS (w3 ++ rest))).elim none
          (fun s4 => matchAfterBool false s4))
        (fun s4 => matchAfterBool true s4) := by
  obtain ⟨e, kE2, rfl, he, _⟩ := ciEq_cons_inv hkE
  have e1 : dropWS (w0 ++ '[' :: '[' :: (w1 ++ (e :: kE2 ++ (w2 ++ '=' :: (w3 ++ rest))))) =
      '[' :: '[' :: (w1 ++ (e :: kE2 ++ (w2 ++ '=' :: (w3 ++ rest)))) := by
    rw [dropWS_ws_append _ h0]
    exact dropWS_cons_of_not (by decide)
  have e2 : litE ['[', '[']
      ('[' :: '[' :: (w1 ++ (e :: kE2 ++ (w2 ++ '=' :: (w3 ++ rest))))) =
      some (w1 ++ (e :: kE2 ++ (w2 ++ '=' :: (w3 ++ rest)))) :=
    litE_append ['[', '['] _
  have e3 : dropWS (w1 ++ (e :: kE2 ++ (w2 ++ '=' :: (w3 ++ rest)))) =
      e :: kE2 ++ (w2 ++ '=' :: (w3 ++ rest)) := by
    rw [dropWS_ws_append _ h1]
    exact dropWS_cons_of_not (not_space_of_toLower he (by decide))
  have e4 : litCI ['E', 'N', 'D'] (e :: kE2 ++ (w2 ++ '=' :: (w3 ++ rest))) =
      some (w2 ++ '=' :: (w3 ++ rest)) :=
    litCI_append _ hkE
  have e5 : dropWS (w2 ++ '=' :: (w3 ++ rest)) = '=' :: (w3 ++ rest) := by
    rw [dropWS_ws_append _ h2]
    exact dropWS_cons_of_not (by decide)
  have e6 : litE ['='] ('=' :: (w3 ++ rest)) = some (w3 ++ rest) :=
    litE_append ['='] _
  simp only [matchSuffix, e1, e2, e3, e4, e5, e6, Option.bind]

theorem ciEq_false_not_true {tb : List Char}
    (h : ciEq tb ['f', 'a', 'l', 's', 'e'] = true) :
    ciEq tb ['t', 'r', 'u', 'e'] = false := by
  by_contra hcon
  rw [Bool.not_eq_false] at hcon
  have h5 := ciEq_length h
  have h4 := ciEq_length hcon
  rw [h5] at h4
  cases h4

theorem matchSuffix_complete (w0 w1 w2 w3 kE tb wB kQ w4 q w7 : List Char)
    (h0 : ∀ c ∈ w0, pySpace c = true)
    (h1 : ∀ c ∈ w1, pySpace c = true)
    (h2 : ∀ c ∈ w2, pySpace c = true)
    (h3 : ∀ c ∈ w3, pySpace c = true)
    (hB : ∀ c ∈ wB, pySpace c = true) (hBne : wB ≠ [])
    (h4 : ∀ c ∈ w4, pySpace c = true)
    (h7 : ∀ c ∈ w7, pySpace c = true)
    (hkE : ciEq kE ['E', 'N', 'D'] = true)
    (htb : ciEq tb ['t', 'r', 'u', 'e'] = true ∨
           ciEq tb ['f', 'a', 'l', 's', 'e'] = true)
    (hkQ : ciEq kQ ['Q', 'I', 'D'] = true)
    (hqne : q ≠ []) (hq2 : ∀ c ∈ q, c ≠ ']') :
    matchSuffix (w0 ++ '[' :: '[' :: (w1 ++ (kE ++ (w2 ++ '=' ::
        (w3 ++ (tb ++ (wB ++ (kQ ++ (w4 ++ '=' ::
        (q ++ ']' :: ']' :: w7)))))))))) =
      some (ciEq tb ['t', 'r', 'u', 'e'], trimChars q) := by
  rw [matchSuffix_to_alternation w0 w1 w2 w3 _ h0 h1 h2 h3 hkE]
  rcases htb with htb | htb
  · obtain ⟨tc, tb2, rfl, htc, _⟩ := ciEq_cons_inv htb
    have e7 : dropWS (w3 ++ (tc :: tb2 ++ (wB ++ (kQ ++ (w4 ++ '=' ::
        (q ++ ']' :: ']' :: w7)))))) =
        tc :: tb2 ++ (wB ++ (kQ ++ (w4 ++ '=' :: (q ++ ']' :: ']' :: w7)))) := by
      rw [dropWS_ws_append _ h3]
      exact dropWS_cons_of_not (not_space_of_toLower htc (by decide))
    have e8 : litCI ['t', 'r', 'u', 'e']
        (tc :: tb2 ++ (wB ++ (kQ ++ (w4 ++ '=' :: (q ++ ']' :: ']' :: w7))))) =
        some (wB ++ (kQ ++ (w4 ++ '=' :: (q ++ ']' :: ']' :: w7)))) :=
      litCI_append _ htb
    rw [e7, e8, Option.elim_some, htb]
    exact matchAfterBool_complete true w4 q w7 hB hBne hkQ h4 hqne hq2 h7
  · obtain ⟨tc, tb2, rfl, htc, _⟩ := ciEq_cons_inv htb
    have e7 : dropWS (w3 ++ (tc :: tb2 ++ (wB ++ (kQ ++ (w4 ++ '=' ::
        (q ++ ']' :: ']' :: w7)))))) =
        tc :: tb2 ++ (wB ++ (kQ ++ (w4 ++ '=' :: (q ++ ']' :: ']' :: w7)))) := by
      rw [dropWS_ws_append _ h3]
      exact dropWS_cons_of_not (not_space_of_toLower htc (by decide))
    have e8 : litCI ['t', 'r', 'u', 'e']
        (tc :: tb2 ++ (wB ++ (kQ ++ (w4 ++ '=' :: (q ++ ']' :: ']' :: w7))))) =
        none := by
      apply litCI_none_of_head
      rw [htc]
      decide
    have e9 : litCI ['f', 'a', 'l', 's', 'e']
        (tc :: tb2 ++ (wB ++ (kQ ++ (w4 ++ '=' :: (q ++ ']' :: ']' :: w7))))) =
        some (wB ++ (kQ ++ (w4 ++ '=' :: (q ++ ']' :: ']' :: w7)))) :=
      litCI_append _ htb
    have hfalse := ciEq_false_not_true htb
    rw [e7, e8, e9, Option.elim_none, Option.elim_some, hfalse]
    exact matchAfterBool_complete false w4 q w7 hB hBne hkQ h4 hqne hq2 h7

/-- Specification-level description of a well-formed trailing marker: the
suffix `s` consists, to its very end, of optional whitespace, `[[`, the
keyword `END` (case-insensitive), `=`, a case variant of `true` or
`false`, at least one whitespace character, the keyword `QID`
(case-insensitive), `=`, a nonempty run of non-`]` characters, `]]` and
trailing whitespace, with optional whitespace at the internal token
boundaries exactly as in the documented pattern. -/
def IsMarkerSuffix (s : List Char) : Prop :=
  ∃ (w0 w1 w2 w3 wB w4 w7 kE tb kQ q : List Char),
    (∀ c ∈ w0, pySpace c = true) ∧ (∀ c ∈ w1, pySpace c = true) ∧
    (∀ c ∈ w2, pySpace c = true) ∧ (∀ c ∈ w3, pySpace c = true) ∧
    (∀ c ∈ wB, pySpace c = true) ∧ wB ≠ [] ∧
    (∀ c ∈ w4, pySpace c = true) ∧ (∀ c ∈ w7, pySpace c = true) ∧
    ciEq kE ['E', 'N', 'D'] = true ∧
    (ciEq tb ['t', 'r', 'u', 'e'] = true ∨
      ciEq tb ['f', 'a', 'l', 's', 'e'] = true) ∧
    ciEq kQ ['Q', 'I', 'D'] = true ∧
    q ≠ [] ∧ (∀ c ∈ q, c ≠ ']') ∧
    s = w0 ++ '[' :: '[' :: (w1 ++ (kE ++ (w2 ++ '=' ::
        (w3 ++ (tb ++ (wB ++ (kQ ++ (w4 ++ '=' ::
        (q ++ ']' :: ']' :: w7)))))))))

theorem matchQidTail_sound {u qr : List Char} (h : matchQidTail u = some qr) :
    ∃ q w, u = q ++ ']' :: ']' :: w ∧ q ≠ [] ∧ (∀ c ∈ q, c ≠ ']') ∧
      (∀ c ∈ w, pySpace c = true) ∧ qr = trimChars q := by
  unfold matchQidTail at h
  split at h
  · cases h
  · rename_i hne
    split at h
    · rename_i w heq
      split at h
      · rename_i hall
        refine ⟨u.takeWhile (fun c => c ≠ ']'), w, ?_, ?_, ?_, ?_, ?_⟩
        · conv_lhs => rw [← List.takeWhile_append_dropWhile
            (p := fun c => decide (c ≠ ']')) (l := u)]
          rw [heq]
        · intro hq
          exact hne (by rw [hq]; rfl)
        · intro c hc
          exact of_decide_eq_true (mem_takeWhile_pred c hc)
        · exact fun c hc => List.all_eq_true.mp hall c hc
        · exact (Option.some.inj h).symm
      · cases h
    · cases h

theorem matchAfterBool_sound {b : Bool} {s : List Char} {r : Bool × List Char}
    (h : matchAfterBool b s = some r) :
    ∃ wB kQ w4 q w7,
      (∀ c ∈ wB, pySpace c = true) ∧ wB ≠ [] ∧
      ciEq kQ ['Q', 'I', 'D'] = true ∧ (∀ c ∈ w4, pySpace c = true) ∧
      q ≠ [] ∧ (∀ c ∈ q, c ≠ ']') ∧ (∀ c ∈ w7, pySpace c = true) ∧
      s = wB ++ (kQ ++ (w4 ++ '=' :: (q ++ ']' :: ']' :: w7))) ∧
      r = (b, trimChars q) := by
  cases s with
  | nil => simp [matchAfterBool] at h
  | cons c rest =>
    have h2 : (if pySpace c then
        (litCI ['Q', 'I', 'D'] (dropWS rest)).bind fun s5 =>
        (litE ['='] (dropWS s5)).bind fun u =>
        (matchQidTail u).map fun qr => (b, qr)
      else none) = some r := h
    clear h
    by_cases hc : pySpace c = true
    case neg => rw [if_neg hc] at h2; cases h2
    rw [if_pos hc] at h2
    rename' h2 => h
    cases h5 : litCI ['Q', 'I', 'D'] (dropWS rest) with
      | none => rw [h5, Option.none_bind] at h; cases h
      | some s5 =>
        rw [h5, Option.some_bind] at h
        cases h6 : litE ['='] (dropWS s5) with
        | none => rw [h6, Option.none_bind] at h; cases h
        | some u =>
          rw [h6, Option.some_bind] at h
          cases h7 : matchQidTail u with
          | none => rw [h7] at h; cases h
          | some qr =>
            rw [h7] at h
            obtain ⟨q, w, hu, hqne, hq2, hw, hqr⟩ := matchQidTail_sound h7
            obtain ⟨twB, hrest, htwB⟩ := exists_takeWhile_dropWhile pySpace rest
            obtain ⟨tw4, hs5, htw4⟩ := exists_takeWhile_dropWhile pySpace s5
            have hkQs5 := litCI_eq_some h5
            obtain ⟨kQ, hdr, hkQ⟩ := hkQs5
            have hdu := litE_eq_some h6
            unfold dropWS at hdr hdu
            refine ⟨c :: twB, kQ, tw4, q, w, ?_, by simp, hkQ, htw4, hqne,
              hq2, hw, ?_, ?_⟩
            · intro x hx
              rcases List.mem_cons.mp hx with rfl | hx
              · exact hc
              · exact htwB x hx
            · show c :: rest = (c :: twB) ++ (kQ ++ (tw4 ++ '=' ::
                (q ++ ']' :: ']' :: w)))
              rw [List.cons_append]
              congr 1
              calc rest = twB ++ rest.dropWhile pySpace := hrest
                _ = twB ++ (kQ ++ s5) := by rw [hdr]
                _ = twB ++ (kQ ++ (tw4 ++ s5.dropWhile pySpace)) := by
                      conv_lhs => rw [hs5]
                _ = twB ++ (kQ ++ (tw4 ++ ('=' :: u))) := by
                      rw [hdu, List.singleton_append]
                _ = twB ++ (kQ ++ (tw4 ++ '=' :: (q ++ ']' :: ']' :: w))) := by
                      rw [hu]
            · simp only [Option.map_some'] at h
              rw [← Option.some.inj h, hqr]

theorem isMarkerSuffix_of_parts {s s1 s2 s3 s4 kE tb : List Char}
    (h1 : dropWS s = ['[', '['] ++ s1)
    (hkE : ciEq kE ['E', 'N', 'D'] = true)
    (h2 : dropWS s1 = kE ++ s2)
    (h3 : dropWS s2 = ['='] ++ s3)
    (htb : ciEq tb ['t', 'r', 'u', 'e'] = true ∨
           ciEq tb ['f', 'a', 'l', 's', 'e'] = true)
    (h4 : dropWS s3 = tb ++ s4)
    (hmab : ∃ wB kQ w4 q w7,
      (∀ c ∈ wB, pySpace c = true) ∧ wB ≠ [] ∧
      ciEq kQ ['Q', 'I', 'D'] = true ∧ (∀ c ∈ w4, pySpace c = true) ∧
      q ≠ [] ∧ (∀ c ∈ q, c ≠ ']') ∧ (∀ c ∈ w7, pySpace c = true) ∧
      s4 = wB ++ (kQ ++ (w4 ++ '=' :: (q ++ ']' :: ']' :: w7)))) :
    IsMarkerSuffix s := by
  obtain ⟨wB, kQ, w4, q, w7, hB, hBne, hkQ, h4w, hqne, hq2, h7, hs4⟩ := hmab
  obtain ⟨tw0, hs, htw0⟩ := exists_takeWhile_dropWhile pySpace s
  obtain ⟨tw1, hs1, htw1⟩ := exists_takeWhile_dropWhile pySpace s1
  obtain ⟨tw2, hs2, htw2⟩ := exists_takeWhile_dropWhile pySpace s2
  obtain ⟨tw3, hs3, htw3⟩ := exists_takeWhile_dropWhile pySpace s3
  have h1' : List.dropWhile pySpace s = ['[', '['] ++ s1 := h1
  have h2' : List.dropWhile pySpace s1 = kE ++ s2 := h2
  have h3' : List.dropWhile pySpace s2 = ['='] ++ s3 := h3
  have h4' : List.dropWhile pySpace s3 = tb ++ s4 := h4
  refine ⟨tw0, tw1, tw2, tw3, wB, w4, w7, kE, tb, kQ, q,
    htw0, htw1, htw2, htw3, hB, hBne, h4w, h7, hkE, htb, hkQ, hqne, hq2, ?_⟩
  calc s = tw0 ++ List.dropWhile pySpace s := hs
    _ = tw0 ++ ('[' :: '[' :: s1) := by rw [h1']; rfl
    _ = tw0 ++ ('[' :: '[' :: (tw1 ++ List.dropWhile pySpace s1)) := by
          conv_lhs => rw [hs1]
    _ = tw0 ++ ('[' :: '[' :: (tw1 ++ (kE ++ s2))) := by rw [h2']
    _ = tw0 ++ ('[' :: '[' ::
          (tw1 ++ (kE ++ (tw2 ++ List.dropWhile pySpace s2)))) := by
          conv_lhs => rw [hs2]
    _ = tw0 ++ ('[' :: '[' :: (tw1 ++ (kE ++ (tw2 ++ ('=' :: s3))))) := by
          rw [h3']; rfl
    _ = tw0 ++ ('[' :: '[' :: (tw1 ++ (kE ++ (tw2 ++ ('=' ::
          (tw3 ++ List.dropWhile pySpace s3)))))) := by
          conv_lhs => rw [hs3]
    _ = tw0 ++ ('[' :: '[' :: (tw1 ++ (kE ++ (tw2 ++ ('=' ::
          (tw3 ++ (tb ++ s4))))))) := by rw [h4']
    _ = tw0 ++ '[' :: '[' :: (tw1 ++ (kE ++ (tw2 ++ '=' ::
          (tw3 ++ (tb ++ (wB ++ (kQ ++ (w4 ++ '=' ::
          (q ++ ']' :: ']' :: w7))))))))) := by rw [hs4]

theorem matchSuffix_sound {s : List Char} {r : Bool × List Char}
    (h : matchSuffix s = some r) : IsMarkerSuffix s := by
  unfold matchSuffix at h
  cases h1 : litE ['[', '['] (dropWS s) with
  | none => rw [h1, Option.none_bind] at h; cases h
  | some s1 =>
    rw [h1, Option.some_bind] at h
    cases h2 : litCI ['E', 'N', 'D'] (dropWS s1) with
    | none => rw [h2, Option.none_bind] at h; cases h
    | some s2 =>
      rw [h2, Option.some_bind] at h
      cases h3 : litE ['='] (dropWS s2) with
      | none => rw [h3, Option.none_bind] at h; cases h
      | some s3 =>
        rw [h3, Option.some_bind] at h
        obtain ⟨kE, hkEeq, hkE⟩ := litCI_eq_some h2
        cases h4 : litCI ['t', 'r', 'u', 'e'] (dropWS s3) with
        | some s4 =>
          rw [h4, Option.elim_some] at h
          obtain ⟨tb, htbeq, htb⟩ := litCI_eq_some h4
          obtain ⟨wB, kQ, w4, q, w7, hB, hBne, hkQ, h4w, hqne, hq2, h7,
            hs4, _⟩ := matchAfterBool_sound h
          exact isMarkerSuffix_of_parts (litE_eq_some h1) hkE hkEeq
            (litE_eq_some h3) (Or.inl htb) htbeq
            ⟨wB, kQ, w4, q, w7, hB, hBne, hkQ, h4w, hqne, hq2, h7, hs4⟩
        | none =>
          rw [h4, Option.elim_none] at h
          cases h5 : litCI ['f', 'a', 'l', 's', 'e'] (dropWS s3) with
          | none => rw [h5, Option.elim_none] at h; cases h
          | some s4 =>
            rw [h5, Option.elim_some] at h
            obtain ⟨tb, htbeq, htb⟩ := litCI_eq_some h5
            obtain ⟨wB, kQ, w4, q, w7, hB, hBne, hkQ, h4w, hqne, hq2, h7,
              hs4, _⟩ := matchAfterBool_sound h
            exact isMarkerSuffix_of_parts (litE_eq_some h1) hkE hkEeq
              (litE_eq_some h3) (Or.inr htb) htbeq
              ⟨wB, kQ, w4, q, w7, hB, hBne, hkQ, h4w, hqne, hq2, h7, hs4⟩

theorem matchSuffix_nil : matchSuffix ([] : List Char) = none := rfl

theorem searchMarker_of_first {n : Nat} :
    ∀ {s : List Char} {b : Bool} {q : List Char},
      (∀ i, i < n → matchSuffix (s.drop i) = none) →
      matchSuffix (s.drop n) = some (b, q) →
      searchMarker s = some (n, b, q) := by
  induction n with
  | zero =>
    intro s b q hlt hn
    rw [List.drop_zero] at hn
    cases s with
    | nil => rw [matchSuffix_nil] at hn; cases hn
    | cons c t =>
      unfold searchMarker
      rw [hn, Option.elim_some]
  | succ n ih =>
    intro s b q hlt hn
    cases s with
    | nil =>
      rw [List.drop_nil, matchSuffix_nil] at hn
      cases hn
    | cons c t =>
      have h0 : matchSuffix (c :: t) = none := by
        have := hlt 0 (Nat.succ_pos n)
        rwa [List.drop_zero] at this
      unfold searchMarker
      rw [h0, Option.elim_none]
      rw [ih (fun i hi => by
            have := hlt (i + 1) (Nat.succ_lt_succ hi)
            rwa [List.drop_succ_cons] at this)
          (by rwa [List.drop_succ_cons] at hn)]
      rfl

theorem searchMarker_inv :
    ∀ {s : List Char} {n : Nat} {b : Bool} {q : List Char},
      searchMarker s = some (n, b, q) →
      matchSuffix (s.drop n) = some (b, q) := by
  intro s
  induction s with
  | nil =>
    intro n b q h
    rw [searchMarker, matchSuffix_nil] at h
    cases h
  | cons c t ih =>
    intro n b q h
    unfold searchMarker at h
    cases hms : matchSuffix (c :: t) with
    | some r =>
      rw [hms, Option.elim_some] at h
      have h2 := Option.some.inj h
      rw [Prod.mk.injEq, Prod.mk.injEq] at h2
      obtain ⟨he1, he2, he3⟩ := h2
      subst he1
      subst he2
      subst he3
      rw [List.drop_zero]
      simpa using hms
    | none =>
      rw [hms, Option.elim_none] at h
      cases hsm : searchMarker t with
      | none => rw [hsm] at h; cases h
      | some r2 =>
        rw [hsm, Option.map_some'] at h
        have h2 := Option.some.inj h
        rw [Prod.mk.injEq, Prod.mk.injEq] at h2
        obtain ⟨he1, he2, he3⟩ := h2
        subst he1
        subst he2
        subst he3
        rw [List.drop_succ_cons]
        exact ih (by simpa using hsm)

theorem searchMarker_ne_none {s : List Char} {i : Nat} {b : Bool}
    {q : List Char} (h : matchSuffix (s.drop i) = some (b, q)) :
    searchMarker s ≠ none := by
  induction s generalizing i with
  | nil => rw [List.drop_nil, matchSuffix_nil] at h; cases h
  | cons c t ih =>
    unfold searchMarker
    cases hms : matchSuffix (c :: t) with
    | some r => simp
    | none =>
      rw [Option.elim_none]
      cases i with
      | zero =>
        rw [List.drop_zero] at h
        rw [hms] at h
        cases h
      | succ j =>
        rw [List.drop_succ_cons] at h
        intro hcon
        apply ih h
        cases hsm : searchMarker t with
        | none => rfl
        | some r2 => rw [hsm, Option.map_some'] at hcon; cases hcon

theorem matchSuffix_of_isMarkerSuffix {s : List Char} (h : IsMarkerSuffix s) :
    ∃ b q, matchSuffix s = some (b, q) := by
  obtain ⟨w0, w1, w2, w3, wB, w4, w7, kE, tb, kQ, q, h0, h1, h2, h3, hB, hBne,
    h4, h7, hkE, htb, hkQ, hqne, hq2, rfl⟩ := h
  exact ⟨_, _, matchSuffix_complete w0 w1 w2 w3 kE tb wB kQ w4 q w7 h0 h1 h2
    h3 hB hBne h4 h7 hkE htb hkQ hqne hq2⟩

/-- A string ends — possibly after trailing whitespace, which the grammar
absorbs — in a well-formed marker: some suffix of it is a marker that
reaches the very end. -/
def EndsWithMarker (text : String) : Prop :=
  ∃ i, IsMarkerSuffix (text.data.drop i)

/-- C2: for every string that does not end in a well-formed trailing
marker — including any string containing a marker-like `[[END=...]]`
substring only away from the true end — the decoder returns the text
unchanged with end = false and question_id = None.  (The decoder is a
total Lean function, mirroring that the Python code performs no raising
operation on this path: a failed or absent regex match only selects the
identity branch.) -/
theorem c2_no_marker_returns_unchanged (text : String)
    (h : ¬ EndsWithMarker text) :
    parse_response_flags_and_clean_text text = (text, false, none) := by
  have hsm : searchMarker text.data = none := by
    cases hsm : searchMarker text.data with
    | none => rfl
    | some r =>
      obtain ⟨n, b, q⟩ := r
      exact absurd ⟨n, matchSuffix_sound (searchMarker_inv hsm)⟩ h
  unfold parse_response_flags_and_clean_text
  by_cases he : text.data.isEmpty
  · rw [if_pos he]
    have htext : text = "" := by
      cases text with
      | mk data =>
        cases data with
        | nil => rfl
        | cons c t => simp [List.isEmpty] at he
    rw [htext]
  · rw [if_neg he, hsm, Option.elim_none]

/-- C2 witness: a string carrying a well-formed marker away from its true
end decodes to itself with end = false and no question id. -/
theorem c2_witness :
    ¬ EndsWithMarker "See [[END=true QID=7]] later" ∧
    parse_response_flags_and_clean_text "See [[END=true QID=7]] later" =
      ("See [[END=true QID=7]] later", false, none) := by
  have hbound : ∀ j < 28,
      matchSuffix ((String.data "See [[END=true QID=7]] later").drop j) =
        none := by decide
  have hall : ∀ j,
      matchSuffix ((String.data "See [[END=true QID=7]] later").drop j) =
        none := by
    intro j
    by_cases hj : j < 28
    · exact hbound j hj
    · rw [List.drop_eq_nil_of_le, matchSuffix_nil]
      have hlen : (String.data "See [[END=true QID=7]] later").length = 28 :=
        by decide
      omega
  have hne : ¬ EndsWithMarker "See [[END=true QID=7]] later" := by
    rintro ⟨i, hms⟩
    obtain ⟨b, q, hsome⟩ := matchSuffix_of_isMarkerSuffix hms
    rw [hall i] at hsome
    cases hsome
  exact ⟨hne, c2_no_marker_returns_unchanged _ hne⟩

theorem hasSubB_of_decomp (pat pre post : List Char) {s : List Char}
    (h : s = pre ++ (pat ++ post)) : hasSubB pat s = true := by
  subst h
  exact hasSubB_append_left pat pre
    (hasSubB_of_startsWith (startsWithB_append pat post))

/-- No start position strictly before the whitespace boundary of `p` can
match the marker regex in `p ++ "[[" ++ mr`, provided `"[["` occurs
nowhere in `p` and `p` does not end in `"["`: the first non-whitespace
character reached from such a position lies in `p`, and the mandatory
`\[\[` of the pattern cannot match there. -/
theorem matchSuffix_drop_none_of_no_brackets {p : List Char} (mr : List Char)
    {i : Nat} (hp : hasSubB ['[', '['] (p ++ ['[']) = false)
    (hi : i < (rstripChars p).length) :
    matchSuffix ((p ++ '[' :: '[' :: mr).drop i) = none := by
  have hrsle : (rstripChars p).length ≤ p.length := by
    conv_rhs => rw [← rstrip_wsTail p]
    rw [List.length_append]
    omega
  have hip : i ≤ p.length := le_trans (le_of_lt hi) hrsle
  rw [List.drop_append_of_le_length hip]
  rcases rstrip_eq_nil_or_last p with hnil | ⟨y, c, hyc, hc⟩
  · rw [hnil] at hi
    cases hi
  · have hcmem : c ∈ p.drop i := by
      have hips : i ≤ (rstripChars p).length := le_of_lt hi
      have h1 : p.drop i = (rstripChars p).drop i ++ wsTail p := by
        conv_lhs => rw [← rstrip_wsTail p]
        rw [List.drop_append_of_le_length hips]
      have hiy : i ≤ y.length := by
        rw [hyc, List.length_append] at hi
        simpa using Nat.lt_succ_iff.mp (by simpa using hi)
      have h2 : (rstripChars p).drop i = y.drop i ++ [c] := by
        rw [hyc, List.drop_append_of_le_length hiy]
      rw [h1, h2]
      simp
    have hd := dropWhile_ne_nil_of_mem hcmem hc
    have hdws : dropWS (p.drop i ++ '[' :: '[' :: mr) =
        (p.drop i).dropWhile pySpace ++ '[' :: '[' :: mr :=
      dropWhile_append_of_ne _ hd
    obtain ⟨u, hu, _⟩ := exists_takeWhile_dropWhile pySpace (p.drop i)
    obtain ⟨pre, hpre⟩ : ∃ pre, p = pre ++ (p.drop i) := ⟨p.take i,
      (List.take_append_drop i p).symm⟩
    cases hdd : (p.drop i).dropWhile pySpace with
    | nil => exact absurd hdd hd
    | cons c0 d2 =>
      have hc0 : pySpace c0 = false := dropWhile_head_false hdd
      have hsubd : p = (pre ++ u) ++ (c0 :: d2) := by
        rw [List.append_assoc, ← hdd, ← hu, ← hpre]
      unfold matchSuffix
      rw [hdws, hdd]
      by_cases hcb : c0 = '['
      · subst hcb
        cases d2 with
        | nil =>
          exfalso
          have : hasSubB ['[', '['] (p ++ ['[']) = true :=
            hasSubB_of_decomp ['[', '['] (pre ++ u) []
              (by rw [hsubd]; simp)
          rw [hp] at this
          cases this
        | cons c1 d3 =>
          by_cases hcb1 : c1 = '['
          · exfalso
            subst hcb1
            have : hasSubB ['[', '['] (p ++ ['[']) = true :=
              hasSubB_of_decomp ['[', '['] (pre ++ u) (d3 ++ ['['])
                (by rw [hsubd]; simp)
            rw [hp] at this
            cases this
          · rw [show litE ['[', '[']
                (('[' :: c1 :: d3) ++ '[' :: '[' :: mr) = none by
                simp [litE, hcb1], Option.none_bind]
      · rw [show litE ['[', '['] ((c0 :: d2) ++ '[' :: '[' :: mr) = none by
            simp [litE, hcb], Option.none_bind]

/-- The marker shape of the claim: `[[END=` t ` QID=` q `]]` followed by
trailing whitespace `w`. -/
def mkMarker (t q w : List Char) : List Char :=
  '[' :: '[' :: 'E' :: 'N' :: 'D' :: '=' ::
    (t ++ ' ' :: 'Q' :: 'I' :: 'D' :: '=' :: (q ++ ']' :: ']' :: w))

/-- C1 (counterexample): the claim says `question_id` is None iff the
captured qid token case-insensitively equals "none"/"null"/empty; here the
captured token is `"None"`, which case-insensitively equals `"none"`, yet
the decoder returns `question_id = "None"`: the membership test
`qid_raw in {"none", "", "null"}` in the source is case-sensitive. -/
theorem c1_qid_none_case_counterexample :
    parse_response_flags_and_clean_text "Great answer! [[END=true QID=None]]" =
      ("Great answer!", true, some "None") ∧
    pyLower "None" = "none" := by decide

/-- C1 (amended): for an input consisting of a prefix `p`, the canonical
trailing marker `[[END=<t> QID=<q>]]` and trailing whitespace — with `t` a
case variant of true/false, `q` a nonempty `]`-free capture, and `p` free
of `[[` (and not ending in `[`, so that no earlier regex match can start
inside `p`) — the decoder strips the marker and the whitespace before it,
sets the end flag iff `t` case-insensitively equals "true", and returns
the trimmed capture as `question_id` unless it case-SENSITIVELY equals
"none", "null" or is empty (the source's membership test does not
lowercase the captured string). -/
theorem c1_trailing_marker_decode (p t q w : List Char)
    (hp : hasSubB ['[', '['] (p ++ ['[']) = false)
    (ht : ciEq t ['t', 'r', 'u', 'e'] = true ∨
          ciEq t ['f', 'a', 'l', 's', 'e'] = true)
    (hq : q ≠ []) (hq2 : ∀ c ∈ q, c ≠ ']')
    (hw : ∀ c ∈ w, pySpace c = true) :
    parse_response_flags_and_clean_text ⟨p ++ mkMarker t q w⟩ =
      (⟨rstripChars p⟩, ciEq t ['t', 'r', 'u', 'e'],
       if trimChars q = "none".data ∨ trimChars q = [] ∨
          trimChars q = "null".data
       then none else some ⟨trimChars q⟩) := by
  have hrsle : (rstripChars p).length ≤ p.length := by
    conv_rhs => rw [← rstrip_wsTail p]
    rw [List.length_append]
    omega
  have hms : matchSuffix (wsTail p ++ mkMarker t q w) =
      some (ciEq t ['t', 'r', 'u', 'e'], trimChars q) :=
    matchSuffix_complete (wsTail p) [] [] [] ['E', 'N', 'D'] t [' ']
      ['Q', 'I', 'D'] [] q w
      (wsTail_all_ws p) (by simp) (by simp) (by simp) (by decide) (by decide)
      (by simp) hw (by decide) ht (by decide) hq hq2
  have hlt : ∀ i, i < (rstripChars p).length →
      matchSuffix ((p ++ mkMarker t q w).drop i) = none := fun i hi =>
    matchSuffix_drop_none_of_no_brackets
      ('E' :: 'N' :: 'D' :: '=' ::
        (t ++ ' ' :: 'Q' :: 'I' :: 'D' :: '=' :: (q ++ ']' :: ']' :: w)))
      hp hi
  have hdrop2 : p.drop (rstripChars p).length = wsTail p := by
    conv_lhs => arg 2; rw [← rstrip_wsTail p]
    exact List.drop_left _ _
  have hdropn : (p ++ mkMarker t q w).drop (rstripChars p).length =
      wsTail p ++ mkMarker t q w := by
    rw [List.drop_append_of_le_length hrsle, hdrop2]
  have hn : matchSuffix ((p ++ mkMarker t q w).drop (rstripChars p).length) =
      some (ciEq t ['t', 'r', 'u', 'e'], trimChars q) := by
    rw [hdropn]
    exact hms
  have hsearch : searchMarker (p ++ mkMarker t q w) =
      some ((rstripChars p).length, ciEq t ['t', 'r', 'u', 'e'], trimChars q) :=
    searchMarker_of_first hlt hn
  have hne : (p ++ mkMarker t q w).isEmpty = false := by
    cases p <;> rfl
  have htake2 : p.take (rstripChars p).length = rstripChars p := by
    conv_lhs => arg 2; rw [← rstrip_wsTail p]
    exact List.take_left _ _
  have htake : rstripChars ((p ++ mkMarker t q w).take
      (rstripChars p).length) = rstripChars p := by
    rw [List.take_append_of_le_length hrsle, htake2]
    exact rstrip_idem p
  unfold parse_response_flags_and_clean_text
  simp only [show (⟨p ++ mkMarker t q w⟩ : String).data = p ++ mkMarker t q w
      from rfl, hne, Bool.false_eq_true, if_false, hsearch, Option.elim_some,
    htake]

/-- C1 witness: the end-to-end scenario of the claim, through the amended
theorem. -/
theorem c1_witness :
    parse_response_flags_and_clean_text "Great answer! [[END=true QID=7]]" =
      ("Great answer!", true, some "7") :=
  c1_trailing_marker_decode "Great answer! ".data "true".data "7".data []
    (by decide) (Or.inl (by decide)) (by decide) (by decide) (by decide)

/-- C3 (counterexample): the claim states that a successful
`generate_reply` returns `end = true` when the session state carries a true
`force_end` flag.  Here the raw text has no marker, there are zero
assistant messages, and the state has `force_end = true`, yet the reply's
end flag is `false`: the source calls `self._should_end_interview(messages)`
without forwarding `state`, so the flag is never consulted. -/
theorem c3_force_end_ignored_counterexample :
    (parse_response_flags_and_clean_text (pyStrip "Okay.")).2.1 = false ∧
    (([] : List Message).filter (fun m => m.role == Role.assistant)).length = 0 ∧
    ({ session_id := none, force_end := true } : SessionState).force_end = true ∧
    (generate_reply (.ok "Okay.") []
      (some { session_id := none, force_end := true })
      initialAgentState).1.end_ = false := by decide

/-- C3 (amended): on a successful backend call the reply's end flag is true
exactly when the decoded trailing marker's end token is true or the count
of assistant messages has reached 10; the `force_end` flag of the session
state has no effect, because `generate_reply` does not forward `state` to
`_should_end_interview`. -/
theorem c3_end_condition (raw : String) (messages : List Message)
    (state : Option SessionState) (st : AgentState) :
    (generate_reply (.ok raw) messages state st).1.end_ =
      ((parse_response_flags_and_clean_text (pyStrip raw)).2.1
        || decide (10 ≤ (messages.filter (fun m => m.role == Role.assistant)).length)) := by
  unfold generate_reply should_end_interview
  by_cases h : 10 ≤ (messages.filter (fun m => m.role == Role.assistant)).length <;>
    simp [h]

/-- C4 (counterexample): the claim states that the user-visible text of the
fallback response never contains raw exception text; for a backend failure
with message `"boom"` the fallback text embeds the exception text
verbatim. -/
theorem c4_fallback_contains_exception_text :
    (generate_reply (.exn "boom" "RuntimeError") [] none
      initialAgentState).1.text =
      "I apologize, but I'm having trouble connecting to Gemini right now. Error: boom" ∧
    hasSubB "boom".data
      ((generate_reply (.exn "boom" "RuntimeError") [] none
        initialAgentState).1.text).data = true := by decide

/-- C4 (amended): a backend failure during the main reply path is not
propagated; the fallback response has `end = false`, carries the error
message and type in its metadata, leaves the used-id set unchanged — and
its user-visible text is the fixed apology followed by the raw exception
text. -/
theorem c4_fallback_shape (msg ty : String) (messages : List Message)
    (state : Option SessionState) (st : AgentState) :
    (generate_reply (.exn msg ty) messages state st).1.end_ = false ∧
    (generate_reply (.exn msg ty) messages state st).1.metadata.error = some msg ∧
    (generate_reply (.exn msg ty) messages state st).1.metadata.error_type = some ty ∧
    (generate_reply (.exn msg ty) messages state st).1.text =
      "I apologize, but I'm having trouble connecting to Gemini right now. Error: " ++ msg ∧
    (generate_reply (.exn msg ty) messages state st).2 = st :=
  ⟨rfl, rfl, rfl, rfl, rfl⟩

/-- A well-formed bank-file record, in the shape documented by the spec's
persisted format. -/
def sampleRecord : RawRecord :=
  { id := some "1",
    capabilities := some (.strList ["Formulas"]),
    difficulty := some "Easy",
    text := some "What is VLOOKUP?",
    evaluation_criteria := some [] }

/-- C5 (code-bug evidence): loading a well-formed one-record bank file
yields the empty bank.  The pydantic model `core.models.Question` declares
the field `capability` (singular) and no `evaluation_criteria`, while
`_load_questions` constructs `Question(id=..., capabilities=..., ...)`;
validation fails on the first record and the `except` clause empties the
bank, contradicting the claim (and the bank-file format documented in the
source) that every record is read into memory. -/
theorem c5_load_drops_wellformed_records :
    load_questions (.parsed [sampleRecord]) = [] := rfl

/-- C6 (code-bug evidence): selecting with a capability filter from a bank
whose single question matches that filter raises `AttributeError` instead
of returning the question: the filter reads `q.capabilities`, an attribute
`core.models.Question` does not declare (its field is the singular
`capability`).  The claim (and the method's own docstring) say the call
returns a surviving question or `None`. -/
theorem c6_select_raises_on_capability_filter :
    select_random_question [⟨"1", ["Formulas"], "Easy", "What is VLOOKUP?"⟩]
      [] none (some ["formulas"]) 0 =
      .error "AttributeError: Question object has no attribute capabilities" := rfl

/-- C7: calling `add_question` with an id equal to the id of an existing
record always reports failure and returns the stored records unchanged.
(The collision check fires before any mutation; independently, no branch of
`add_question` can ever mutate the bank, see `add_question_never_succeeds`.) -/
theorem c7_add_with_existing_id_fails (questions : List Question)
    (text : String) (capabilities : List String) (difficulty : String)
    (i : String) (evaluation_criteria : List String) (saveOk : Bool)
    (hmem : ∃ q ∈ questions, q.id = i) :
    add_question questions text capabilities difficulty (some i)
      evaluation_criteria saveOk = (questions, false) :=
  add_question_never_succeeds questions text capabilities difficulty
    (some i) evaluation_criteria saveOk

/-- C7 witness: a concrete collision on a one-record bank. -/
theorem c7_witness :
    add_question [⟨"1", ["Formulas"], "Easy", "What is VLOOKUP?"⟩]
      "Explain INDEX-MATCH." ["Formulas"] "Medium" (some "1") [] true =
      ([⟨"1", ["Formulas"], "Easy", "What is VLOOKUP?"⟩], false) :=
  c7_add_with_existing_id_fails _ _ _ _ _ _ _
    ⟨⟨"1", ["Formulas"], "Easy", "What is VLOOKUP?"⟩, by decide, rfl⟩

/-- C8 (code-bug evidence): on the empty bank the generated id would indeed
be `"1"`, but `add("What is VLOOKUP?", ["Formulas"], "Easy")` fails and
adds nothing: the `Question(...)` construction raises a pydantic
`ValidationError` because the model declares `capability`, not
`capabilities`.  The claim (and the spec scenario) say this call succeeds
and assigns id `"1"`. -/
theorem c8_add_on_empty_bank_fails :
    generate_unique_id [] = "1" ∧
    add_question [] "What is VLOOKUP?" ["Formulas"] "Easy" none [] true =
      ([], false) :=
  ⟨rfl, rfl⟩

/-- C9: the used-question-id set grows monotonically within a session: a
new agent starts with the empty set, and each of `get_next_question`,
`generate_reply` and `generate_question` only ever adds ids. -/
theorem c9_used_ids_monotone :
    initialAgentState.used_question_ids = [] ∧
    (∀ bank st caps diff pick, st.used_question_ids ⊆
      (get_next_question bank st caps diff pick).2.used_question_ids) ∧
    (∀ backend messages state st, st.used_question_ids ⊆
      (generate_reply backend messages state st).2.used_question_ids) ∧
    (∀ bank st llm caps diff saveOk, st.used_question_ids ⊆
      (generate_question bank st llm caps diff saveOk).2.1.used_question_ids) := by
  refine ⟨rfl, ?_, ?_, ?_⟩
  · intro bank st caps diff pick
    unfold get_next_question
    rcases hsel : select_random_question bank st.used_question_ids diff caps pick with e | oq
    · simp [hsel]
    · rcases oq with _ | q
      · simp [hsel]
      · by_cases hq : q.id = "" <;> simp [hsel, hq, subset_setAdd]
  · intro backend messages state st
    unfold generate_reply
    cases backend with
    | ok raw =>
      rcases hp : (parse_response_flags_and_clean_text (pyStrip raw)).2.2 with _ | qid <;>
        simp [hp, subset_setAdd]
    | exn msg ty => simp
  · intro bank st llm caps diff saveOk
    unfold generate_question
    cases llm with
    | ok p =>
      by_cases ht : pyStrip (p.text.getD "") = ""
      · simp [ht]
      · simp only [ht, if_false]
        split_ifs <;> simp [subset_setAdd]
    | error e => simp

/-- C9 witness: an id present before a `generate_reply` call is still
present afterwards. -/
theorem c9_witness :
    "7" ∈ (generate_reply (.ok "Hi") [] none ⟨["7"]⟩).2.used_question_ids :=
  c9_used_ids_monotone.2.2.1 (.ok "Hi") [] none ⟨["7"]⟩ (by decide)

/-- C10: when the bank yields no question for the session's exclusions and
the given filters, `get_next_question` returns the sentinel payload with
id `""` and text `"No more suitable questions are available."`, and the
used-question-id set is untouched. -/
theorem c10_sentinel_leaves_set_unchanged (bank : List Question)
    (st : AgentState) (caps : Option (List String)) (diff : Option String)
    (pick : Nat)
    (h : select_random_question bank st.used_question_ids diff caps pick = .ok none) :
    get_next_question bank st caps diff pick =
      (.ok ⟨"", "No more suitable questions are available.",
            diff.getD "", caps.getD []⟩, st) := by
  unfold get_next_question
  rw [h]

/-- C10 witness: the empty bank with no filters. -/
theorem c10_witness :
    get_next_question [] initialAgentState none none 0 =
      (.ok ⟨"", "No more suitable questions are available.", "", []⟩,
       initialAgentState) :=
  c10_sentinel_leaves_set_unchanged [] initialAgentState none none 0 rfl

end ExcelAI
